import Mathlib

/-!
# Verification of the TPC acoustic-probe core (ClosedClaw)

Shallow embedding, in Lean 4, of the probe scripts under
`src/agents/clawtalk/tpc/probes/` (`send.py`, `recv.py`, `decide.py`,
`analyze.py`, `sweep.py`), together with proofs and refutations of the
frozen specification claims.

Modelling conventions:
* Byte strings are `List ℕ` with values below 256.
* Python integers are `ℕ`; exact rational values stand in for Python
  floats wherever the code only performs field arithmetic and order
  comparisons (`ℚ`); trigonometric synthesis is idealised over `ℝ`.
* The AFSK oscillator phase is recorded in cycles: the code's running
  `phase` variable always equals `2 * π * c` where `c` is the rational
  cycle count tracked here, since every increment is `2 * π * f / sr`.
* Fallible code returns `Except`/`Option` values.
-/

namespace ClosedClaw

/-! ## SHA-256 (behaviour of `hashlib.sha256` as used by the probes) -/

/-- Truncation to a 32-bit word. -/
def w32 (x : ℕ) : ℕ := x % 4294967296

/-- 32-bit right rotation by `k` (for `x < 2^32`). -/
def rotr32 (k x : ℕ) : ℕ := w32 ((x >>> k) ||| (x <<< (32 - k)))

/-- SHA-256 big sigma 0. -/
def bigSigma0 (x : ℕ) : ℕ := rotr32 2 x ^^^ rotr32 13 x ^^^ rotr32 22 x

/-- SHA-256 big sigma 1. -/
def bigSigma1 (x : ℕ) : ℕ := rotr32 6 x ^^^ rotr32 11 x ^^^ rotr32 25 x

/-- SHA-256 small sigma 0. -/
def smallSigma0 (x : ℕ) : ℕ := rotr32 7 x ^^^ rotr32 18 x ^^^ (x >>> 3)

/-- SHA-256 small sigma 1. -/
def smallSigma1 (x : ℕ) : ℕ := rotr32 17 x ^^^ rotr32 19 x ^^^ (x >>> 10)

/-- SHA-256 choose function (`¬x` as xor with the 32-bit mask). -/
def chFn (x y z : ℕ) : ℕ := (x &&& y) ^^^ ((x ^^^ 4294967295) &&& z)

/-- SHA-256 majority function. -/
def majFn (x y z : ℕ) : ℕ := (x &&& y) ^^^ (x &&& z) ^^^ (y &&& z)

/-- The 64 SHA-256 round constants. -/
def sha256K : List ℕ :=
  [1116352408, 1899447441, 3049323471, 3921009573, 961987163, 1508970993,
   2453635748, 2870763221, 3624381080, 310598401, 607225278, 1426881987,
   1925078388, 2162078206, 2614888103, 3248222580, 3835390401, 4022224774,
   264347078, 604807628, 770255983, 1249150122, 1555081692, 1996064986,
   2554220882, 2821834349, 2952996808, 3210313671, 3336571891, 3584528711,
   113926993, 338241895, 666307205, 773529912, 1294757372, 1396182291,
   1695183700, 1986661051, 2177026350, 2456956037, 2730485921, 2820302411,
   3259730800, 3345764771, 3516065817, 3600352804, 4094571909, 275423344,
   430227734, 506948616, 659060556, 883997877, 958139571, 1322822218,
   1537002063, 1747873779, 1955562222, 2024104815, 2227730452, 2361852424,
   2428436474, 2756734187, 3204031479, 3329325298]

/-- SHA-256 working state (registers a–h). -/
structure Sha256State where
  a : ℕ
  b : ℕ
  c : ℕ
  d : ℕ
  e : ℕ
  f : ℕ
  g : ℕ
  h : ℕ

/-- SHA-256 initial hash value. -/
def sha256Init : Sha256State :=
  ⟨1779033703, 3144134277, 1013904242, 2773480762,
   1359893119, 2600822924, 528734635, 1541459225⟩

/-- One SHA-256 compression round. -/
def sha256Round (kt wt : ℕ) (s : Sha256State) : Sha256State :=
  let t1 := w32 (s.h + bigSigma1 s.e + chFn s.e s.f s.g + kt + wt)
  let t2 := w32 (bigSigma0 s.a + majFn s.a s.b s.c)
  ⟨w32 (t1 + t2), s.a, s.b, s.c, w32 (s.d + t1), s.e, s.f, s.g⟩

/-- Append one word to the message schedule. -/
def scheduleStep (ws : List ℕ) : List ℕ :=
  let t := ws.length
  ws ++ [w32 (smallSigma1 (ws.getD (t - 2) 0) + ws.getD (t - 7) 0 +
              smallSigma0 (ws.getD (t - 15) 0) + ws.getD (t - 16) 0)]

/-- Extend the 16 block words by `n` further schedule words. -/
def buildSchedule (ws : List ℕ) : ℕ → List ℕ
  | 0 => ws
  | n + 1 => buildSchedule (scheduleStep ws) n

/-- Big-endian 32-bit words of a 64-byte block. -/
def toWords : List ℕ → List ℕ
  | b0 :: b1 :: b2 :: b3 :: rest =>
    (((b0 * 256 + b1) * 256 + b2) * 256 + b3) :: toWords rest
  | _ => []

/-- Compress one 64-byte block into the running hash state. -/
def sha256Compress (st : Sha256State) (block : List ℕ) : Sha256State :=
  let ws := buildSchedule (toWords block) 48
  let fin := (sha256K.zip ws).foldl (fun s kw => sha256Round kw.1 kw.2 s) st
  ⟨w32 (st.a + fin.a), w32 (st.b + fin.b), w32 (st.c + fin.c), w32 (st.d + fin.d),
   w32 (st.e + fin.e), w32 (st.f + fin.f), w32 (st.g + fin.g), w32 (st.h + fin.h)⟩

/-- Big-endian 8-byte encoding of a (64-bit) length. -/
def be64 (n : ℕ) : List ℕ :=
  [(n >>> 56) &&& 255, (n >>> 48) &&& 255, (n >>> 40) &&& 255, (n >>> 32) &&& 255,
   (n >>> 24) &&& 255, (n >>> 16) &&& 255, (n >>> 8) &&& 255, n &&& 255]

/-- SHA-256 padding: `0x80`, zeros to 56 mod 64, then the bit length. -/
def padMessage (msg : List ℕ) : List ℕ :=
  let z := (64 - ((msg.length + 9) % 64)) % 64
  msg ++ [128] ++ List.replicate z 0 ++ be64 (8 * msg.length)

/-- Split a padded message into 64-byte blocks. -/
def toBlocks (l : List ℕ) : List (List ℕ) :=
  if h : l = [] then []
  else l.take 64 :: toBlocks (l.drop 64)
termination_by l.length
decreasing_by
  simp only [List.length_drop]
  have : l.length ≠ 0 := fun hz => h (List.length_eq_zero.mp hz)
  omega

/-- Big-endian bytes of one 32-bit word. -/
def word32Bytes (x : ℕ) : List ℕ :=
  [(x >>> 24) &&& 255, (x >>> 16) &&& 255, (x >>> 8) &&& 255, x &&& 255]

/-- SHA-256 digest (32 bytes) of a byte string. -/
def sha256 (msg : List ℕ) : List ℕ :=
  let fin := (toBlocks (padMessage msg)).foldl sha256Compress sha256Init
  word32Bytes fin.a ++ word32Bytes fin.b ++ word32Bytes fin.c ++ word32Bytes fin.d ++
  word32Bytes fin.e ++ word32Bytes fin.f ++ word32Bytes fin.g ++ word32Bytes fin.h

/-- A SHA-256 digest always has 32 bytes. -/
theorem sha256_length (msg : List ℕ) : (sha256 msg).length = 32 := by
  simp [sha256, word32Bytes]

/-! ## Calibration frame codec (`send.py`, lines 39–55) -/

/-- `CALIBRATION_MAGIC = b"\xCA\x1B\xDA\x7A"`. -/
def CALIBRATION_MAGIC : List ℕ := [202, 27, 218, 122]

/-- `CALIBRATION_PAYLOAD = b"TPC-CALIBRATE-2026"` (ASCII bytes). -/
def CALIBRATION_PAYLOAD : List ℕ :=
  [84, 80, 67, 45, 67, 65, 76, 73, 66, 82, 65, 84, 69, 45, 50, 48, 50, 54]

/-- `struct.pack(">H", n)`: two big-endian bytes (for `n < 2^16`). -/
def packBE16 (n : ℕ) : List ℕ := [(n >>> 8) &&& 255, n &&& 255]

/-- `generate_calibration_packet(seq)`:
`[2B length][4B magic][2B seq][18B payload][32B sha256]`, 58 bytes. -/
def generate_calibration_packet (seq : ℕ) : List ℕ :=
  let seqBytes := packBE16 seq
  let digest := sha256 (CALIBRATION_MAGIC ++ seqBytes ++ CALIBRATION_PAYLOAD)
  let packet := CALIBRATION_MAGIC ++ seqBytes ++ CALIBRATION_PAYLOAD ++ digest
  packBE16 packet.length ++ packet

/-- A calibration packet is always 58 bytes long. -/
theorem generate_calibration_packet_length (seq : ℕ) :
    (generate_calibration_packet seq).length = 58 := by
  simp [generate_calibration_packet, packBE16, CALIBRATION_MAGIC, CALIBRATION_PAYLOAD,
    sha256_length]

/-! ## AFSK modulator (`send.py`, `modulate_afsk_ultrasonic`, lines 58–99) -/

/-- `samples_per_bit = int(sample_rate / baud_rate)` (integer division). -/
def samples_per_bit (sample_rate baud_rate : ℕ) : ℕ := sample_rate / baud_rate

/-- Preamble: `[1, 0] * 16` — 32 alternating bits. -/
def preambleBits : List ℕ := (List.replicate 16 [1, 0]).flatten

/-- Postamble: 16 idle (`1`) bits. -/
def postambleBits : List ℕ := List.replicate 16 1

/-- UART framing of one byte: start `0`, 8 data bits MSB-first, stop `1`. -/
def byteBits (byte : ℕ) : List ℕ :=
  0 :: ((List.range 8).map fun k => (byte >>> (7 - k)) &&& 1) ++ [1]

/-- UART bits of a byte string (the `for byte in data` loop). -/
def dataBits : List ℕ → List ℕ
  | [] => []
  | byte :: rest => byteBits byte ++ dataBits rest

/-- Full bit stream of one packet: preamble, framed bytes, postamble. -/
def frameBits (data : List ℕ) : List ℕ :=
  preambleBits ++ dataBits data ++ postambleBits

/-- The inner sample loop for one bit: `n` phase values starting at `q`,
advancing by `inc` per sample; also returns the final phase.
Phases are in cycles: the code's phase value is `2 * π *` (this value). -/
def phaseRun (inc : ℚ) : ℕ → ℚ → List ℚ × ℚ
  | 0, q => ([], q)
  | n + 1, q =>
    let r := phaseRun inc n (q + inc)
    (q :: r.1, r.2)

/-- Carrier frequency for a bit: `freq0` if the bit is 0, else `freq1`. -/
def bitFreq (freq0 freq1 : ℚ) (b : ℕ) : ℚ := if b = 0 then freq0 else freq1

/-- Phase (cycle) values of all samples for a bit list, threading the
continuous phase through bit boundaries exactly as the code does. -/
def modPhasesGo (freq0 freq1 srq : ℚ) (spb : ℕ) : List ℕ → ℚ → List ℚ
  | [], _ => []
  | b :: bs, q =>
    let inc := bitFreq freq0 freq1 b / srq
    let r := phaseRun inc spb q
    r.1 ++ modPhasesGo freq0 freq1 srq spb bs r.2

/-- Phase (cycle) values of every sample of one modulated packet. -/
def modPhases (data : List ℕ) (freq0 freq1 : ℚ) (sample_rate baud_rate : ℕ) : List ℚ :=
  modPhasesGo freq0 freq1 (sample_rate : ℚ) (samples_per_bit sample_rate baud_rate)
    (frameBits data) 0

/-- `modulate_afsk_ultrasonic`: each sample is `0.6 * sin(phase)` with
`phase = 2 * π * c` for the cycle value `c` of that sample. -/
noncomputable def modulate_afsk_ultrasonic (data : List ℕ) (freq0 freq1 : ℚ)
    (sample_rate baud_rate : ℕ) : List ℝ :=
  (modPhases data freq0 freq1 sample_rate baud_rate).map
    fun c : ℚ => (3 / 5 : ℝ) * Real.sin (2 * Real.pi * (c : ℝ))

/-- Closed form of the per-bit sample loop: phases `q, q+inc, …`. -/
theorem phaseRun_fst (inc : ℚ) (n : ℕ) (q : ℚ) :
    (phaseRun inc n q).1 = (List.range n).map (fun j : ℕ => q + (j : ℚ) * inc) := by
  induction n generalizing q with
  | zero => simp [phaseRun]
  | succ n ih =>
    rw [show (phaseRun inc (n + 1) q).1 = q :: (phaseRun inc n (q + inc)).1 from rfl]
    rw [List.range_succ_eq_map, List.map_cons, List.map_map, ih]
    congr 1
    · simp
    · apply List.map_congr_left
      intro j _
      simp only [Function.comp_apply, Nat.succ_eq_add_one]
      push_cast
      ring

/-- Final phase after one bit: the start phase plus `n` increments. -/
theorem phaseRun_snd (inc : ℚ) (n : ℕ) (q : ℚ) :
    (phaseRun inc n q).2 = q + n * inc := by
  induction n generalizing q with
  | zero => simp [phaseRun]
  | succ n ih =>
    rw [show (phaseRun inc (n + 1) q).2 = (phaseRun inc n (q + inc)).2 from rfl, ih]
    push_cast
    ring

/-- One bit produces exactly `samples_per_bit` samples. -/
theorem phaseRun_length (inc : ℚ) (n : ℕ) (q : ℚ) :
    (phaseRun inc n q).1.length = n := by
  rw [phaseRun_fst]; simp

/-- A packet of `k` bits yields `k * samples_per_bit` samples. -/
theorem modPhasesGo_length (freq0 freq1 srq : ℚ) (spb : ℕ) (bs : List ℕ) (q : ℚ) :
    (modPhasesGo freq0 freq1 srq spb bs q).length = bs.length * spb := by
  induction bs generalizing q with
  | nil => simp [modPhasesGo]
  | cons b bs ih =>
    simp only [modPhasesGo, List.length_append, phaseRun_length, ih, List.length_cons]
    ring

/-- With equal mark and space carriers the phase sequence is the
arithmetic progression `q, q + f/sr, q + 2 f/sr, …`. -/
theorem modPhasesGo_const (f srq : ℚ) (spb : ℕ) (bs : List ℕ) (q : ℚ) :
    modPhasesGo f f srq spb bs q
      = (List.range (bs.length * spb)).map (fun j : ℕ => q + (j : ℚ) * (f / srq)) := by
  induction bs generalizing q with
  | nil => simp [modPhasesGo]
  | cons b bs ih =>
    have hb : bitFreq f f b = f := by unfold bitFreq; split <;> rfl
    simp only [modPhasesGo, hb, phaseRun_fst, phaseRun_snd, ih]
    rw [show (b :: bs).length * spb = spb + bs.length * spb by
      simp [List.length_cons]; ring]
    rw [List.range_add, List.map_append, List.map_map]
    congr 1
    apply List.map_congr_left
    intro j _
    simp only [Function.comp_apply]
    push_cast
    ring

/-- Head of a nonempty bit run. -/
theorem phaseRun_head (inc q : ℚ) (n : ℕ) :
    ((phaseRun inc (n + 1) q).1).head? = some q := rfl

/-- Last phase emitted by a nonempty bit run. -/
theorem phaseRun_getLast (inc : ℚ) (n : ℕ) (q : ℚ) :
    ((phaseRun inc (n + 1) q).1).getLast? = some (q + n * inc) := by
  rw [phaseRun_fst, List.getLast?_map, List.range_succ, List.getLast?_concat]
  simp

/-- Within one bit consecutive phases differ by exactly the increment. -/
theorem phaseRun_chain (inc : ℚ) (n : ℕ) (q : ℚ) :
    List.Chain' (fun a b => b = a + inc) (phaseRun inc n q).1 := by
  induction n generalizing q with
  | zero => simp [phaseRun]
  | succ n ih =>
    rw [show (phaseRun inc (n + 1) q).1 = q :: (phaseRun inc n (q + inc)).1 from rfl]
    refine List.chain'_cons'.mpr ⟨?_, ih (q + inc)⟩
    intro y hy
    cases n with
    | zero => simp [phaseRun] at hy
    | succ m =>
      rw [phaseRun_head] at hy
      simp only [Option.mem_def, Option.some.injEq] at hy
      exact hy.symm

/-- The step relation between consecutive oscillator phases: one sample
advance at the mark or at the space carrier. -/
def StepRel (freq0 freq1 srq : ℚ) (a b : ℚ) : Prop :=
  b = a + freq0 / srq ∨ b = a + freq1 / srq

/-- With `samples_per_bit = 0` the modulator emits nothing. -/
theorem modPhasesGo_spb_zero (freq0 freq1 srq : ℚ) (bs : List ℕ) (q : ℚ) :
    modPhasesGo freq0 freq1 srq 0 bs q = [] := by
  induction bs generalizing q with
  | nil => rfl
  | cons b bs ih => simp [modPhasesGo, phaseRun, ih]

/-- Head of the phase stream of a nonempty bit list. -/
theorem modPhasesGo_head (freq0 freq1 srq : ℚ) (k : ℕ) (b : ℕ) (bs : List ℕ) (q : ℚ) :
    (modPhasesGo freq0 freq1 srq (k + 1) (b :: bs) q).head? = some q := by
  simp [modPhasesGo, phaseRun]

/-- Continuous phase: across the whole bit stream — bit boundaries
included — consecutive phases differ by exactly one per-sample increment
`f / sr` with `f` the current bit's carrier; the phase is never reset. -/
theorem modPhasesGo_chain (freq0 freq1 srq : ℚ) (spb : ℕ) (bs : List ℕ) (q : ℚ) :
    List.Chain' (StepRel freq0 freq1 srq) (modPhasesGo freq0 freq1 srq spb bs q) := by
  cases spb with
  | zero => rw [modPhasesGo_spb_zero]; simp
  | succ k =>
    induction bs generalizing q with
    | nil => simp [modPhasesGo]
    | cons b bs ih =>
      rw [show modPhasesGo freq0 freq1 srq (k + 1) (b :: bs) q
            = (phaseRun (bitFreq freq0 freq1 b / srq) (k + 1) q).1
              ++ modPhasesGo freq0 freq1 srq (k + 1) bs
                  (phaseRun (bitFreq freq0 freq1 b / srq) (k + 1) q).2 from rfl]
      refine List.chain'_append.mpr ⟨?_, ih _, ?_⟩
      · refine (phaseRun_chain _ _ _).imp ?_
        intro a c hac
        unfold StepRel
        by_cases hb : b = 0
        · exact Or.inl (by simpa [bitFreq, hb] using hac)
        · exact Or.inr (by simpa [bitFreq, hb] using hac)
      · intro x hx y hy
        rw [phaseRun_getLast] at hx
        simp only [Option.mem_def, Option.some.injEq] at hx
        subst hx
        cases bs with
        | nil => simp [modPhasesGo] at hy
        | cons b2 bs2 =>
          rw [modPhasesGo_head] at hy
          simp only [Option.mem_def, Option.some.injEq] at hy
          subst hy
          rw [phaseRun_snd]
          unfold StepRel
          by_cases hb : b = 0
          · left; simp only [bitFreq, hb, if_pos]; push_cast; ring
          · right; simp only [bitFreq, if_neg hb]; push_cast; ring

/-! ## Batch assembly and Nyquist pre-check (`send.py`, `main`, lines 148–176) -/

/-- `int(args.sample_rate * args.gap_ms / 1000)`: Python `int()` truncates
toward zero, which on the nonnegative values used here is the floor. -/
def gapCount (sample_rate : ℕ) (gap_ms : ℚ) : ℕ :=
  (⌊(sample_rate * gap_ms) / 1000⌋).toNat

/-- The send loop: for each `seq`, the modulated calibration packet
followed by the silent gap, concatenated into one buffer. -/
noncomputable def batchGo (freq0 freq1 : ℚ) (sample_rate baud : ℕ) (gap_ms : ℚ) :
    ℕ → ℕ → List ℝ
  | 0, _ => []
  | k + 1, seq =>
    modulate_afsk_ultrasonic (generate_calibration_packet seq) freq0 freq1 sample_rate baud
      ++ List.replicate (gapCount sample_rate gap_ms) 0
      ++ batchGo freq0 freq1 sample_rate baud gap_ms k (seq + 1)

/-- `all_samples` produced by `send.py main` for `npackets` packets. -/
noncomputable def batchSamples (npackets : ℕ) (freq0 freq1 : ℚ) (sample_rate baud : ℕ)
    (gap_ms : ℚ) : List ℝ :=
  batchGo freq0 freq1 sample_rate baud gap_ms npackets 0

/-- Outcome of `send.py main`: either the Nyquist refusal (success=false,
no synthesis) or a synthesized PCM buffer. -/
inductive SendOutcome where
  | nyquistRefused : SendOutcome
  | synthesized : List ℝ → SendOutcome

/-- The `main` control flow of `send.py`: the Nyquist check
`sample_rate < max_freq * 2` runs before any synthesis. -/
noncomputable def sendMain (freq0 freq1 : ℚ) (sample_rate baud npackets : ℕ)
    (gap_ms : ℚ) : SendOutcome :=
  if (sample_rate : ℚ) < max freq0 freq1 * 2 then SendOutcome.nyquistRefused
  else SendOutcome.synthesized (batchSamples npackets freq0 freq1 sample_rate baud gap_ms)

/-- The preamble has 32 bits. -/
theorem preambleBits_length : preambleBits.length = 32 := rfl

/-- Each framed byte contributes 10 bits. -/
theorem byteBits_length (byte : ℕ) : (byteBits byte).length = 10 := by
  simp [byteBits]

/-- UART framing yields 10 bits per data byte. -/
theorem dataBits_length (data : List ℕ) : (dataBits data).length = 10 * data.length := by
  induction data with
  | nil => rfl
  | cons b rest ih => simp [dataBits, byteBits_length, ih]; ring

/-- Total bit count of a framed packet: preamble + bytes + postamble. -/
theorem frameBits_length (data : List ℕ) :
    (frameBits data).length = 10 * data.length + 48 := by
  simp [frameBits, preambleBits_length, dataBits_length, postambleBits]
  ring

/-- Sample count of one modulated packet. -/
theorem modulate_length (data : List ℕ) (freq0 freq1 : ℚ) (sample_rate baud : ℕ) :
    (modulate_afsk_ultrasonic data freq0 freq1 sample_rate baud).length
      = (10 * data.length + 48) * samples_per_bit sample_rate baud := by
  simp [modulate_afsk_ultrasonic, modPhases, modPhasesGo_length, frameBits_length]

/-- C6 (amended): each modulated calibration packet contributes exactly
`628 * samples_per_bit` samples, the inter-packet gap is
`int(sample_rate * gap_ms / 1000)` zeros — truncated, not rounded — and
the batch buffer length is the sum of all packet and gap sample counts. -/
theorem batch_length_sum (npackets : ℕ) (freq0 freq1 : ℚ) (sample_rate baud : ℕ)
    (gap_ms : ℚ) :
    (∀ seq, (modulate_afsk_ultrasonic (generate_calibration_packet seq)
        freq0 freq1 sample_rate baud).length = 628 * samples_per_bit sample_rate baud)
    ∧ (batchSamples npackets freq0 freq1 sample_rate baud gap_ms).length
        = npackets * (628 * samples_per_bit sample_rate baud + gapCount sample_rate gap_ms) := by
  have hpkt : ∀ seq, (modulate_afsk_ultrasonic (generate_calibration_packet seq)
      freq0 freq1 sample_rate baud).length = 628 * samples_per_bit sample_rate baud := by
    intro seq
    rw [modulate_length, generate_calibration_packet_length]
  refine ⟨hpkt, ?_⟩
  unfold batchSamples
  generalize 0 = seq0
  induction npackets generalizing seq0 with
  | zero => simp [batchGo]
  | succ k ih =>
    simp only [batchGo, List.length_append, List.length_replicate, hpkt, ih]
    ring

/-- C6 counterexample: with `sample_rate = 1000` and `gap_ms = 1.5` the
code inserts `int(1.5) = 1` zero sample between packets, while the claim
demands `round(1.5) = 2`. -/
theorem gap_count_not_round :
    gapCount 1000 (3 / 2) = 1
    ∧ (round ((1000 * (3 / 2 : ℚ)) / 1000)).toNat = 2
    ∧ gapCount 1000 (3 / 2) ≠ (round ((1000 * (3 / 2 : ℚ)) / 1000)).toNat := by
  have hf : ⌊(3 / 2 : ℚ)⌋ = 1 := by norm_num
  have hr : round (3 / 2 : ℚ) = 2 := by rw [round_eq]; norm_num
  have h1 : gapCount 1000 (3 / 2) = 1 := by simp [gapCount, hf]
  have h2 : (round ((1000 * (3 / 2 : ℚ)) / 1000)).toNat = 2 := by simp [hr]
  exact ⟨h1, h2, by rw [h1, h2]; omega⟩

/-- C5: any transmission request violating the Nyquist bound
`sample_rate < 2 * max(freq0, freq1)` is refused before synthesis: the
send pipeline reports the Nyquist error and produces no PCM buffer. -/
theorem send_nyquist_refusal (freq0 freq1 : ℚ) (sample_rate baud npackets : ℕ)
    (gap_ms : ℚ) (hnyq : (sample_rate : ℚ) < 2 * max freq0 freq1) :
    sendMain freq0 freq1 sample_rate baud npackets gap_ms = SendOutcome.nyquistRefused
    ∧ ∀ pcm : List ℝ,
        sendMain freq0 freq1 sample_rate baud npackets gap_ms ≠ SendOutcome.synthesized pcm := by
  have h : (sample_rate : ℚ) < max freq0 freq1 * 2 := by linarith
  refine ⟨by simp [sendMain, if_pos h], ?_⟩
  intro pcm
  simp [sendMain, if_pos h]

/-- C5 witness: the spec's concrete instance `sr = 32000`, `freq1 = 20000`. -/
theorem send_nyquist_refusal_witness :
    sendMain 18000 20000 32000 150 10 200 = SendOutcome.nyquistRefused
    ∧ ∀ pcm : List ℝ, sendMain 18000 20000 32000 150 10 200 ≠ SendOutcome.synthesized pcm :=
  send_nyquist_refusal 18000 20000 32000 150 10 200 (by
    rw [max_eq_right (by norm_num : (18000 : ℚ) ≤ 20000)]
    norm_num)

/-! ## Continuous-phase sample bound (claim about `send.py`, lines 86–99) -/

/-- The sine difference over one phase step is bounded by the step. -/
theorem abs_sin_add_sub_sin (a d : ℝ) : |Real.sin (a + d) - Real.sin a| ≤ |d| := by
  rw [Real.sin_sub_sin]
  have h1 : |Real.sin ((a + d - a) / 2)| ≤ |d| / 2 := by
    calc |Real.sin ((a + d - a) / 2)| ≤ |(a + d - a) / 2| := Real.abs_sin_le_abs
    _ = |d| / 2 := by rw [show (a + d - a) / 2 = d / 2 by ring, abs_div]; norm_num
  have h2 : |Real.cos ((a + d + a) / 2)| ≤ 1 := Real.abs_cos_le_one _
  have hs := abs_nonneg (Real.sin ((a + d - a) / 2))
  have hc := abs_nonneg (Real.cos ((a + d + a) / 2))
  calc |2 * Real.sin ((a + d - a) / 2) * Real.cos ((a + d + a) / 2)|
      = 2 * |Real.sin ((a + d - a) / 2)| * |Real.cos ((a + d + a) / 2)| := by
        rw [abs_mul, abs_mul, abs_two]
  _ ≤ |d| := by nlinarith

/-- C9 (amended): inside one modulated packet the oscillator phase
advances by exactly `2 π f / sample_rate` per sample (`f` the current
bit's carrier, phases here in cycles) and is never reset between bits,
so consecutive samples differ by at most
`2 π max(freq0, freq1) / sample_rate * 0.6` (with no slack term).
Across the silent gaps of a batch only the trivial amplitude bound
holds; see the companion counterexample. -/
theorem modulate_continuous_phase (data : List ℕ) (freq0 freq1 : ℚ)
    (sample_rate baud : ℕ) (h0 : 0 ≤ freq0) (h1 : 0 ≤ freq1) :
    List.Chain' (StepRel freq0 freq1 (sample_rate : ℚ))
      (modPhases data freq0 freq1 sample_rate baud)
    ∧ List.Chain'
        (fun x y => |y - x| ≤
          2 * Real.pi * ((max freq0 freq1 : ℚ) : ℝ) / (sample_rate : ℝ) * (3 / 5))
        (modulate_afsk_ultrasonic data freq0 freq1 sample_rate baud) := by
  have hchain := modPhasesGo_chain freq0 freq1 (sample_rate : ℚ)
    (samples_per_bit sample_rate baud) (frameBits data) 0
  refine ⟨hchain, ?_⟩
  unfold modulate_afsk_ultrasonic
  rw [List.chain'_map]
  refine hchain.imp ?_
  intro a b hab
  have key : ∀ f : ℚ, 0 ≤ f → f ≤ max freq0 freq1 → b = a + f / (sample_rate : ℚ) →
      |(3 / 5 : ℝ) * Real.sin (2 * Real.pi * (b : ℝ))
        - (3 / 5 : ℝ) * Real.sin (2 * Real.pi * (a : ℝ))|
      ≤ 2 * Real.pi * ((max freq0 freq1 : ℚ) : ℝ) / (sample_rate : ℝ) * (3 / 5) := by
    intro f hf hfmax hb
    have hsr : (0 : ℝ) ≤ (sample_rate : ℝ) := Nat.cast_nonneg _
    have hfR : (0 : ℝ) ≤ (f : ℝ) := by exact_mod_cast hf
    have hd0 : (0 : ℝ) ≤ 2 * Real.pi * ((f : ℝ) / (sample_rate : ℝ)) :=
      mul_nonneg (by positivity) (div_nonneg hfR hsr)
    have hbR : (b : ℝ) = (a : ℝ) + (f : ℝ) / (sample_rate : ℝ) := by
      rw [hb]; push_cast; ring
    have harg : 2 * Real.pi * (b : ℝ)
        = 2 * Real.pi * (a : ℝ) + 2 * Real.pi * ((f : ℝ) / (sample_rate : ℝ)) := by
      rw [hbR]; ring
    have hstep : |Real.sin (2 * Real.pi * (b : ℝ)) - Real.sin (2 * Real.pi * (a : ℝ))|
        ≤ 2 * Real.pi * ((f : ℝ) / (sample_rate : ℝ)) := by
      rw [harg]
      calc |Real.sin (2 * Real.pi * (a : ℝ) + 2 * Real.pi * ((f : ℝ) / (sample_rate : ℝ)))
            - Real.sin (2 * Real.pi * (a : ℝ))|
          ≤ |2 * Real.pi * ((f : ℝ) / (sample_rate : ℝ))| := abs_sin_add_sub_sin _ _
      _ = 2 * Real.pi * ((f : ℝ) / (sample_rate : ℝ)) := abs_of_nonneg hd0
    have hmaxR : ((max freq0 freq1 : ℚ) : ℝ) = max (freq0 : ℝ) (freq1 : ℝ) := by
      push_cast; rfl
    have hfle : (f : ℝ) ≤ ((max freq0 freq1 : ℚ) : ℝ) := by exact_mod_cast hfmax
    have hdiv : (f : ℝ) / (sample_rate : ℝ)
        ≤ ((max freq0 freq1 : ℚ) : ℝ) / (sample_rate : ℝ) := by
      rcases Nat.eq_zero_or_pos sample_rate with hz | hp
      · simp [hz]
      · exact (div_le_div_iff_of_pos_right (by exact_mod_cast hp)).mpr hfle
    have habs : |(3 / 5 : ℝ) * Real.sin (2 * Real.pi * (b : ℝ))
        - (3 / 5 : ℝ) * Real.sin (2 * Real.pi * (a : ℝ))|
        = (3 / 5 : ℝ) * |Real.sin (2 * Real.pi * (b : ℝ))
            - Real.sin (2 * Real.pi * (a : ℝ))| := by
      rw [← mul_sub, abs_mul]
      norm_num
    rw [habs]
    have h2pi : (0 : ℝ) ≤ 2 * Real.pi := by positivity
    have hmul := mul_le_mul_of_nonneg_left hdiv h2pi
    exact le_trans
      (mul_le_mul_of_nonneg_left (hstep.trans hmul) (by norm_num : (0 : ℝ) ≤ 3 / 5))
      (le_of_eq (by ring))
  rcases hab with hb | hb
  · exact key freq0 h0 (le_max_left _ _) hb
  · exact key freq1 h1 (le_max_right _ _) hb

/-- C9 amended-claim witness at the ultrasonic calibration parameters. -/
theorem modulate_continuous_phase_witness :
    List.Chain' (StepRel 18000 20000 (48000 : ℚ)) (modPhases [202] 18000 20000 48000 150)
    ∧ List.Chain'
        (fun x y => |y - x| ≤
          2 * Real.pi * ((max (18000 : ℚ) 20000 : ℚ) : ℝ) / ((48000 : ℕ) : ℝ) * (3 / 5))
        (modulate_afsk_ultrasonic [202] 18000 20000 48000 150) :=
  modulate_continuous_phase [202] 18000 20000 48000 150 (by norm_num) (by norm_num)

/-- Unfolding of the send loop for a positive packet count. -/
theorem batchGo_succ (freq0 freq1 : ℚ) (sample_rate baud : ℕ) (gap_ms : ℚ) (k seq : ℕ) :
    batchGo freq0 freq1 sample_rate baud gap_ms (k + 1) seq
      = modulate_afsk_ultrasonic (generate_calibration_packet seq)
          freq0 freq1 sample_rate baud
        ++ (List.replicate (gapCount sample_rate gap_ms) 0
           ++ batchGo freq0 freq1 sample_rate baud gap_ms k (seq + 1)) := by
  simp only [batchGo, List.append_assoc]

/-- The send loop emits nothing for a zero packet count. -/
theorem batchGo_zero (freq0 freq1 : ℚ) (sample_rate baud : ℕ) (gap_ms : ℚ) (seq : ℕ) :
    batchGo freq0 freq1 sample_rate baud gap_ms 0 seq = [] := by
  simp only [batchGo]
/-- The 200 ms inter-packet gap at 48 kHz is exactly 9600 zero samples. -/
theorem gapCount_48k_200ms : gapCount 48000 200 = 9600 := by
  simp only [gapCount]
  norm_num
  rfl

/-- A single-packet batch at the counterexample parameters is the modulated
calibration packet followed by the 9600-sample silent gap. -/
theorem batch_decomp_calibration :
    batchSamples 1 (300075 / 1256) (300075 / 1256) 48000 150 200
    = modulate_afsk_ultrasonic (generate_calibration_packet 0)
        (300075 / 1256) (300075 / 1256) 48000 150
      ++ List.replicate 9600 (0 : ℝ) := by
  show batchGo (300075 / 1256) (300075 / 1256) 48000 150 200 1 0 = _
  rw [show (1 : ℕ) = 0 + 1 from rfl, batchGo_succ, batchGo_zero, gapCount_48k_200ms,
    List.append_nil]

/-- With equal mark and space carriers the phase sequence is the arithmetic
progression `j * f / sample_rate`, independently of the frame bits. -/
theorem modPhases_const_calibration :
    modPhases (generate_calibration_packet 0) (300075 / 1256) (300075 / 1256) 48000 150
    = (List.range 200960).map
        (fun j : ℕ => (0 : ℚ) + (j : ℚ) * ((300075 / 1256) / (48000 : ℚ))) := by
  have hspb : samples_per_bit 48000 150 = 320 := rfl
  have hbits : (frameBits (generate_calibration_packet 0)).length = 628 := by
    rw [frameBits_length, generate_calibration_packet_length]
  unfold modPhases
  rw [hspb, modPhasesGo_const, hbits]
  norm_num

/-- The modulated calibration packet has 628 bits x 320 samples = 200960 samples. -/
theorem modulate_calibration_length :
    (modulate_afsk_ultrasonic (generate_calibration_packet 0)
      (300075 / 1256) (300075 / 1256) 48000 150).length = 200960 := by
  rw [modulate_length, generate_calibration_packet_length]
  rfl

/-- Panicking list indexing agrees with optional indexing plus a default. -/
theorem list_getElem_bang_eq (l : List ℝ) (n : ℕ) : l[n]! = (l[n]?).getD default := rfl

/-- The first gap sample of the counterexample batch is silence. -/
theorem batch_sample_at_gap_start :
    (batchSamples 1 (300075 / 1256) (300075 / 1256) 48000 150 200)[200960]! = 0 := by
  rw [list_getElem_bang_eq, batch_decomp_calibration,
    List.getElem?_append_right (by rw [modulate_calibration_length]),
    modulate_calibration_length, List.getElem?_replicate]
  norm_num

/-- The last packet sample of the counterexample batch, in closed form: the
oscillator has accumulated `200959 * f / sample_rate = 804036959/803840` cycles. -/
theorem batch_sample_at_packet_end :
    (batchSamples 1 (300075 / 1256) (300075 / 1256) 48000 150 200)[200959]!
    = (3 / 5 : ℝ) * Real.sin (2 * Real.pi * ((804036959 / 803840 : ℚ) : ℝ)) := by
  rw [list_getElem_bang_eq, batch_decomp_calibration,
    List.getElem?_append_left (by rw [modulate_calibration_length]; norm_num)]
  unfold modulate_afsk_ultrasonic
  rw [modPhases_const_calibration, List.getElem?_map, List.getElem?_map,
    List.getElem?_range (by norm_num)]
  show (3 / 5 : ℝ) * Real.sin (2 * Real.pi
      * ((((0 : ℚ) + (200959 : ℚ) * ((300075 / 1256) / (48000 : ℚ))) : ℚ) : ℝ)) = _
  norm_num

/-- The jump from the last packet sample to the first gap sample beats the
claimed bound with slack `1/2`: the packet ends at phase `2 pi * 1000.25`,
where the sine sits near its peak, and the gap sample is zero. -/
theorem batch_jump_numeric :
    |(0 : ℝ) - (3 / 5 : ℝ) * Real.sin (2 * Real.pi * ((804036959 / 803840 : ℚ) : ℝ))|
    > 2 * Real.pi * ((max (300075 / 1256 : ℚ) (300075 / 1256) : ℚ) : ℝ)
        / ((48000 : ℕ) : ℝ) * (3 / 5) + 1 / 2 := by
  have hq : ((804036959 / 803840 : ℚ) : ℝ) = 196959 / 803840 + 1000 := by
    push_cast
    norm_num
  have hsplit : 2 * Real.pi * ((804036959 / 803840 : ℚ) : ℝ)
      = 2 * Real.pi * (196959 / 803840 : ℝ) + (1000 : ℤ) * (2 * Real.pi) := by
    rw [hq]
    push_cast
    ring
  have hco : (2 : ℝ) * (196959 / 803840) = 1 / 2 - 2 * (4001 / 803840) := by norm_num
  have harg : 2 * Real.pi * (196959 / 803840 : ℝ)
      = Real.pi / 2 - 2 * Real.pi * (4001 / 803840) := by
    linear_combination Real.pi * hco
  rw [hsplit, Real.sin_add_int_mul_two_pi, harg, Real.sin_pi_div_two_sub]
  have hπu : Real.pi < 3.1416 := Real.pi_lt_d4
  have hπl : 3.14 < Real.pi := Real.pi_gt_d2
  have hθpos : (0 : ℝ) < 2 * Real.pi * (4001 / 803840) := by positivity
  have hθle : 2 * Real.pi * (4001 / 803840) ≤ 32 / 1000 := by nlinarith
  have hcos := Real.one_sub_sq_div_two_le_cos (x := 2 * Real.pi * (4001 / 803840))
  have hsq : (2 * Real.pi * (4001 / 803840)) ^ 2 ≤ (32 / 1000 : ℝ) ^ 2 :=
    pow_le_pow_left₀ hθpos.le hθle 2
  have hcosge : (99 / 100 : ℝ) ≤ Real.cos (2 * Real.pi * (4001 / 803840)) := by
    linarith
  have hmax : ((max (300075 / 1256 : ℚ) (300075 / 1256) : ℚ) : ℝ) = 300075 / 1256 := by
    rw [max_self]
    push_cast
    norm_num
  have hcoef : (2 : ℝ) * (300075 / 1256) / 48000 * (3 / 5)
      = 3 / 5 * (2 * (4001 / 803840)) := by norm_num
  have hrhs : 2 * Real.pi * ((max (300075 / 1256 : ℚ) (300075 / 1256) : ℚ) : ℝ)
      / ((48000 : ℕ) : ℝ) * (3 / 5)
      = 3 / 5 * (2 * Real.pi * (4001 / 803840)) := by
    rw [hmax]
    push_cast
    linear_combination Real.pi * hcoef
  rw [hrhs]
  rw [zero_sub, abs_neg, abs_of_nonneg (by
    have hcnn : (0 : ℝ) ≤ Real.cos (2 * Real.pi * (4001 / 803840)) := by linarith
    exact mul_nonneg (by norm_num) hcnn)]
  linarith

/-- C9 counterexample: in the batch modulated at
`freq0 = freq1 = 300075/1256 Hz`, `sample_rate = 48000`, `baud = 150`,
`gap_ms = 200` (parameters passing the Nyquist pre-check), the step from
the last sample of the first packet (index 200959) to the first silent
gap sample (index 200960) exceeds the claimed bound
`2 π max(freq0,freq1)/sample_rate * amplitude` even with slack `ε = 1/2`:
the carrier is chosen so the packet ends at phase `2 π · 1000.25`, where
the sine sits near its peak. -/
theorem batch_phase_jump_counterexample :
    |(batchSamples 1 (300075 / 1256) (300075 / 1256) 48000 150 200)[200960]!
      - (batchSamples 1 (300075 / 1256) (300075 / 1256) 48000 150 200)[200959]!|
    > 2 * Real.pi * ((max (300075 / 1256 : ℚ) (300075 / 1256) : ℚ) : ℝ)
        / ((48000 : ℕ) : ℝ) * (3 / 5) + 1 / 2 := by
  rw [batch_sample_at_gap_start, batch_sample_at_packet_end]
  exact batch_jump_numeric

/-! ## Mode decision engine (`decide.py`, `decide_mode`, lines 74–118) -/

/-- TPC transport modes, ordered `file < audible < ultrasonic`. -/
inductive TpcMode where
  | ultrasonic : TpcMode
  | audible : TpcMode
  | file : TpcMode
deriving DecidableEq

/-- The decision record returned by `decide_mode` (reason string omitted:
it is display-only). -/
structure Decision where
  mode : TpcMode
  freq0_hz : Option ℕ
  freq1_hz : Option ℕ
  baud_rate : Option ℕ
  confidence : ℚ
deriving DecidableEq

/-- `ULTRASONIC_SNR_THRESHOLD = 20.0` dB. -/
def ULTRASONIC_SNR_THRESHOLD : ℚ := 20

/-- `ULTRASONIC_PER_THRESHOLD = 0.05`. -/
def ULTRASONIC_PER_THRESHOLD : ℚ := 1 / 20

/-- `AUDIBLE_SNR_THRESHOLD = 10.0` dB. -/
def AUDIBLE_SNR_THRESHOLD : ℚ := 10

/-- `AUDIBLE_PER_THRESHOLD = 0.20`. -/
def AUDIBLE_PER_THRESHOLD : ℚ := 1 / 5

/-- `ULTRASONIC_FREQ0 = 18000` Hz. -/
def ULTRASONIC_FREQ0 : ℕ := 18000

/-- `ULTRASONIC_FREQ1 = 20000` Hz. -/
def ULTRASONIC_FREQ1 : ℕ := 20000

/-- `AUDIBLE_FREQ0 = 1200` Hz. -/
def AUDIBLE_FREQ0 : ℕ := 1200

/-- `AUDIBLE_FREQ1 = 2400` Hz. -/
def AUDIBLE_FREQ1 : ℕ := 2400

/-- `decide_mode(snr_db, per)`: the threshold ladder of `decide.py`. -/
def decide_mode (snr_db per : ℚ) : Decision :=
  if ULTRASONIC_SNR_THRESHOLD ≤ snr_db ∧ per ≤ ULTRASONIC_PER_THRESHOLD then
    ⟨TpcMode.ultrasonic, some ULTRASONIC_FREQ0, some ULTRASONIC_FREQ1, some 150,
     min 1 (snr_db / 40)⟩
  else if AUDIBLE_SNR_THRESHOLD ≤ snr_db ∧ per ≤ AUDIBLE_PER_THRESHOLD then
    ⟨TpcMode.audible, some AUDIBLE_FREQ0, some AUDIBLE_FREQ1, some 300,
     min 1 (snr_db / 30)⟩
  else
    ⟨TpcMode.file, none, none, none, 1⟩

/-- The ultrasonic decision record at a given SNR. -/
def ultraDecision (snr_db : ℚ) : Decision :=
  ⟨TpcMode.ultrasonic, some 18000, some 20000, some 150, min 1 (snr_db / 40)⟩

/-- The audible decision record at a given SNR. -/
def audibleDecision (snr_db : ℚ) : Decision :=
  ⟨TpcMode.audible, some 1200, some 2400, some 300, min 1 (snr_db / 30)⟩

/-- The file decision record. -/
def fileDecision : Decision := ⟨TpcMode.file, none, none, none, 1⟩

/-- C3: the decision ladder — ultrasonic (18000/20000 Hz, 150 baud,
confidence `min 1 (snr/40)`) iff `snr ≥ 20 ∧ per ≤ 0.05`; otherwise
audible (1200/2400 Hz, 300 baud, confidence `min 1 (snr/30)`) iff
`snr ≥ 10 ∧ per ≤ 0.20`; otherwise file with confidence 1 — together
with the spec's concrete instances including the inclusive boundaries. -/
theorem decide_mode_spec :
    (∀ s p : ℚ,
      (decide_mode s p = ultraDecision s ↔ 20 ≤ s ∧ p ≤ 1 / 20)
      ∧ (decide_mode s p = audibleDecision s ↔
          ¬(20 ≤ s ∧ p ≤ 1 / 20) ∧ (10 ≤ s ∧ p ≤ 1 / 5))
      ∧ (decide_mode s p = fileDecision ↔
          ¬(20 ≤ s ∧ p ≤ 1 / 20) ∧ ¬(10 ≤ s ∧ p ≤ 1 / 5)))
    ∧ decide_mode 25 (1 / 50) = ultraDecision 25
    ∧ decide_mode 15 (1 / 10) = audibleDecision 15
    ∧ decide_mode 8 (1 / 50) = fileDecision
    ∧ decide_mode 25 (1 / 4) = fileDecision
    ∧ decide_mode 20 (1 / 20) = ultraDecision 20
    ∧ decide_mode 10 (1 / 5) = audibleDecision 10 := by
  have hchar : ∀ s p : ℚ,
      (decide_mode s p = ultraDecision s ↔ 20 ≤ s ∧ p ≤ 1 / 20)
      ∧ (decide_mode s p = audibleDecision s ↔
          ¬(20 ≤ s ∧ p ≤ 1 / 20) ∧ (10 ≤ s ∧ p ≤ 1 / 5))
      ∧ (decide_mode s p = fileDecision ↔
          ¬(20 ≤ s ∧ p ≤ 1 / 20) ∧ ¬(10 ≤ s ∧ p ≤ 1 / 5)) := by
    intro s p
    unfold decide_mode ULTRASONIC_SNR_THRESHOLD ULTRASONIC_PER_THRESHOLD
      AUDIBLE_SNR_THRESHOLD AUDIBLE_PER_THRESHOLD ULTRASONIC_FREQ0 ULTRASONIC_FREQ1
      AUDIBLE_FREQ0 AUDIBLE_FREQ1
    split_ifs with h1 h2
    · refine ⟨iff_of_true rfl h1, iff_of_false ?_ ?_, iff_of_false ?_ ?_⟩
      · intro hcontra
        simp [ultraDecision, audibleDecision] at hcontra
      · rintro ⟨hn, _⟩
        exact hn h1
      · intro hcontra
        simp [fileDecision] at hcontra
      · rintro ⟨hn, _⟩
        exact hn h1
    · refine ⟨iff_of_false ?_ h1, iff_of_true rfl ⟨h1, h2⟩, iff_of_false ?_ ?_⟩
      · intro hcontra
        simp [ultraDecision, audibleDecision] at hcontra
      · intro hcontra
        simp [fileDecision] at hcontra
      · rintro ⟨_, hn⟩
        exact hn h2
    · refine ⟨iff_of_false ?_ h1, iff_of_false ?_ ?_, iff_of_true rfl ⟨h1, h2⟩⟩
      · intro hcontra
        simp [ultraDecision, fileDecision] at hcontra
      · intro hcontra
        simp [audibleDecision, fileDecision] at hcontra
      · rintro ⟨_, hn⟩
        exact h2 hn
  refine ⟨hchar, ?_, ?_, ?_, ?_, ?_, ?_⟩
  · exact (hchar 25 (1 / 50)).1.mpr (by norm_num)
  · exact (hchar 15 (1 / 10)).2.1.mpr (by norm_num)
  · exact (hchar 8 (1 / 50)).2.2.mpr (by norm_num)
  · exact (hchar 25 (1 / 4)).2.2.mpr (by norm_num)
  · exact (hchar 20 (1 / 20)).1.mpr (by norm_num)
  · exact (hchar 10 (1 / 5)).2.1.mpr (by norm_num)

/-- Numeric rank of a mode in the ladder `file < audible < ultrasonic`. -/
def modeRank : TpcMode → ℕ
  | TpcMode.file => 0
  | TpcMode.audible => 1
  | TpcMode.ultrasonic => 2

/-- The mode field of a decision, as a three-way conditional. -/
theorem decide_mode_mode (s p : ℚ) :
    (decide_mode s p).mode
      = if 20 ≤ s ∧ p ≤ 1 / 20 then TpcMode.ultrasonic
        else if 10 ≤ s ∧ p ≤ 1 / 5 then TpcMode.audible
        else TpcMode.file := by
  unfold decide_mode ULTRASONIC_SNR_THRESHOLD ULTRASONIC_PER_THRESHOLD
    AUDIBLE_SNR_THRESHOLD AUDIBLE_PER_THRESHOLD
  split_ifs <;> rfl

/-- C4: the decision ladder is monotone — raising SNR at fixed PER never
downgrades the mode, and lowering PER at fixed SNR never downgrades it. -/
theorem decide_mode_monotone :
    (∀ pq s1 s2 : ℚ, s2 ≤ s1 →
      modeRank (decide_mode s2 pq).mode ≤ modeRank (decide_mode s1 pq).mode)
    ∧ (∀ s p1 p2 : ℚ, p1 ≤ p2 →
      modeRank (decide_mode s p2).mode ≤ modeRank (decide_mode s p1).mode) := by
  constructor
  · intro pq s1 s2 hle
    rw [decide_mode_mode, decide_mode_mode]
    by_cases a1 : 20 ≤ s2 ∧ pq ≤ 1 / 20
    · have a2 : 20 ≤ s1 ∧ pq ≤ 1 / 20 := ⟨le_trans a1.1 hle, a1.2⟩
      rw [if_pos a1, if_pos a2]
    · rw [if_neg a1]
      by_cases b1 : 10 ≤ s2 ∧ pq ≤ 1 / 5
      · have b2 : 10 ≤ s1 ∧ pq ≤ 1 / 5 := ⟨le_trans b1.1 hle, b1.2⟩
        rw [if_pos b1]
        by_cases a2 : 20 ≤ s1 ∧ pq ≤ 1 / 20
        · rw [if_pos a2]
          simp [modeRank]
        · rw [if_neg a2, if_pos b2]
      · rw [if_neg b1]
        split_ifs <;> simp [modeRank]
  · intro s p1 p2 hle
    rw [decide_mode_mode, decide_mode_mode]
    by_cases a1 : 20 ≤ s ∧ p2 ≤ 1 / 20
    · have a2 : 20 ≤ s ∧ p1 ≤ 1 / 20 := ⟨a1.1, le_trans hle a1.2⟩
      rw [if_pos a1, if_pos a2]
    · rw [if_neg a1]
      by_cases b1 : 10 ≤ s ∧ p2 ≤ 1 / 5
      · have b2 : 10 ≤ s ∧ p1 ≤ 1 / 5 := ⟨b1.1, le_trans hle b1.2⟩
        rw [if_pos b1]
        by_cases a2 : 20 ≤ s ∧ p1 ≤ 1 / 20
        · rw [if_pos a2]
          simp [modeRank]
        · rw [if_neg a2, if_pos b2]
      · rw [if_neg b1]
        split_ifs <;> simp [modeRank]

/-- C4 witness: concrete monotone instances of the ladder. -/
theorem decide_mode_monotone_witness :
    modeRank (decide_mode 15 0).mode ≤ modeRank (decide_mode 25 0).mode
    ∧ modeRank (decide_mode 25 (1 / 4)).mode ≤ modeRank (decide_mode 25 0).mode :=
  ⟨decide_mode_monotone.1 0 25 15 (by norm_num),
   decide_mode_monotone.2 25 0 (1 / 4) (by norm_num)⟩

/-! ## Packet extraction (`recv.py`, `extract_packets`, lines 107–158) -/

/-- One record appended by `extract_packets`. -/
structure PacketRec where
  seq : ℕ
  valid_hash : Bool
  payload_match : Bool
  intact : Bool
deriving DecidableEq

/-- The Python slice `l[a:b]`. -/
def sliceList (l : List ℕ) (a b : ℕ) : List ℕ := (l.drop a).take (b - a)

/-- `struct.unpack(">H", ·)` on a two-byte slice. -/
def be16v : List ℕ → ℕ
  | [a, b] => 256 * a + b
  | _ => 0

/-- `raw_data.find(CALIBRATION_MAGIC, i)`: index of the first occurrence
of the magic at or after `i`, if any. -/
def findMagic (raw : List ℕ) (i : ℕ) : Option ℕ :=
  if i + 4 ≤ raw.length then
    if sliceList raw i (i + 4) = CALIBRATION_MAGIC then some i
    else findMagic raw (i + 1)
  else none
termination_by raw.length - i

/-- A found magic index never precedes the search start. -/
theorem findMagic_ge (raw : List ℕ) (i : ℕ) (m : ℕ)
    (h : findMagic raw i = some m) : i ≤ m := by
  induction i using findMagic.induct raw with
  | case1 i hle heq =>
    rw [findMagic, if_pos hle, if_pos heq] at h
    injection h with h2
    exact h2.le
  | case2 i hle hne ih =>
    rw [findMagic, if_pos hle, if_neg hne] at h
    exact Nat.le_of_succ_le (ih h)
  | case3 i hgt =>
    rw [findMagic, if_neg hgt] at h
    exact absurd h (by simp)

/-- The scan loop of `extract_packets`, with the loop iterations counted
by explicit fuel: `none` means the fuel ran out before the loop exited. -/
def extractGo (raw : List ℕ) : ℕ → ℕ → List PacketRec → Option (List PacketRec)
  | fuel, i, acc =>
    if i + 2 < raw.length then
      match fuel with
      | 0 => none
      | fuel + 1 =>
        match findMagic raw i with
        | none => some acc
        | some m =>
          if m < 2 then extractGo raw fuel (m + 1) acc
          else
            let length := be16v (sliceList raw (m - 2) m)
            if raw.length < m + length then extractGo raw fuel (m + 1) acc
            else
              let body := sliceList raw m (m + length)
              if body.length < 56 then extractGo raw fuel (m + 1) acc
              else
                let magic := sliceList body 0 4
                let seqv := be16v (sliceList body 4 6)
                let payload := sliceList body 6 24
                let received := sliceList body 24 56
                let expectedHash := sha256 (magic ++ sliceList body 4 6 ++ payload)
                let valid := received == expectedHash
                let pmatch := payload == CALIBRATION_PAYLOAD
                extractGo raw fuel (m + length)
                  (acc ++ [⟨seqv, valid, pmatch, valid && pmatch⟩])
    else some acc

/-- `extract_packets(raw_data)`, with fuel `raw.length` (shown sufficient
by `extract_packets_terminates`). -/
def extract_packets (raw : List ℕ) : Option (List PacketRec) :=
  extractGo raw raw.length 0 []

/-- On every iteration the cursor strictly increases, so fuel covering
the remaining bytes suffices for the loop to exit. -/
theorem extractGo_total (raw : List ℕ) :
    ∀ fuel i acc, raw.length ≤ fuel + i → extractGo raw fuel i acc ≠ none := by
  intro fuel
  induction fuel with
  | zero =>
    intro i acc hfi
    rw [extractGo]
    have : ¬(i + 2 < raw.length) := by omega
    rw [if_neg this]
    simp
  | succ fuel ih =>
    intro i acc hfi
    rw [extractGo]
    by_cases hlt : i + 2 < raw.length
    · rw [if_pos hlt]
      cases hfind : findMagic raw i with
      | none => simp
      | some m =>
        dsimp only
        have hmi : i ≤ m := findMagic_ge raw i m hfind
        by_cases hm2 : m < 2
        · rw [if_pos hm2]
          exact ih (m + 1) acc (by omega)
        · rw [if_neg hm2]
          by_cases hend : raw.length < m + be16v (sliceList raw (m - 2) m)
          · rw [if_pos hend]
            exact ih (m + 1) acc (by omega)
          · rw [if_neg hend]
            by_cases hshort : (sliceList raw m (m + be16v (sliceList raw (m - 2) m))).length < 56
            · rw [if_pos hshort]
              exact ih (m + 1) acc (by omega)
            · rw [if_neg hshort]
              have hlen56 : 56 ≤ be16v (sliceList raw (m - 2) m) := by
                have hb : (sliceList raw m (m + be16v (sliceList raw (m - 2) m))).length
                    ≤ be16v (sliceList raw (m - 2) m) := by
                  rw [sliceList, List.length_take, List.length_drop]
                  omega
                omega
              exact ih (m + be16v (sliceList raw (m - 2) m)) _ (by omega)
    · rw [if_neg hlt]
      simp

/-- C10: the packet-extractor scan loop terminates on every input byte
stream — the cursor strictly increases on every iteration (past the
rejected candidate, or past the recorded packet body), so fuel equal to
the stream length is never exhausted. -/
theorem extract_packets_terminates (raw : List ℕ) :
    ∃ ps : List PacketRec, extract_packets raw = some ps := by
  have h := extractGo_total raw raw.length 0 [] (by omega)
  cases hc : extractGo raw raw.length 0 [] with
  | none => exact absurd hc h
  | some ps => exact ⟨ps, hc⟩

/-! ## PER aggregation (`recv.py`, `main`, lines 246–260) -/

/-- The receiver's aggregation of extractor records against the expected
packet count: found, intact, corrupted, lost (`max(0, expected − found)`,
which is ℕ subtraction here) and the packet error rate. -/
def recvStats (expected : ℕ) (packets : List PacketRec) : ℕ × ℕ × ℕ × ℕ × ℚ :=
  let found := packets.length
  let intact := (packets.filter (fun p => p.intact)).length
  let corrupted := (packets.filter (fun p => !p.intact)).length
  let lost := expected - found
  (found, intact, corrupted, lost,
    ((lost + corrupted : ℕ) : ℚ) / ((max expected 1 : ℕ) : ℚ))

/-- C2 (amended): for **every** record list the receiver computes
`corrupted = found − intact`, `lost = max(0, expected − found)` (ℕ
subtraction is the clamp) and
`PER = (lost + corrupted) / max(expected, 1)`; this PER is always
nonnegative, and it is at most 1 whenever `found ≤ expected`.  (When
more packets are found than expected the PER can exceed 1 — see the
counterexample.) -/
theorem recv_per_arithmetic (expected : ℕ) (packets : List PacketRec) :
    (recvStats expected packets).2.2.1
        = packets.length - (recvStats expected packets).2.1
    ∧ (recvStats expected packets).2.2.2.1 = expected - packets.length
    ∧ (recvStats expected packets).2.2.2.2
        = ((expected - packets.length) + (recvStats expected packets).2.2.1 : ℕ)
          / ((max expected 1 : ℕ) : ℚ)
    ∧ 0 ≤ (recvStats expected packets).2.2.2.2
    ∧ (packets.length ≤ expected → (recvStats expected packets).2.2.2.2 ≤ 1) := by
  have hsplit : (packets.filter (fun p => p.intact)).length
      + (packets.filter (fun p => !p.intact)).length = packets.length :=
    (@List.length_eq_length_filter_add PacketRec packets (fun p => p.intact)).symm
  have hden : (0 : ℚ) < ((max expected 1 : ℕ) : ℚ) := by
    have : 1 ≤ max expected 1 := le_max_right _ _
    exact_mod_cast Nat.lt_of_lt_of_le Nat.zero_lt_one this
  refine ⟨by simp [recvStats]; omega, rfl, by simp [recvStats], ?_, ?_⟩
  · exact div_nonneg (by positivity) hden.le
  · intro hfe
    have hnum : ((expected - packets.length)
        + (packets.filter (fun p => !p.intact)).length : ℕ) ≤ max expected 1 := by
      have h1 : (packets.filter (fun p => !p.intact)).length ≤ packets.length :=
        List.length_filter_le _ _
      have h2 : expected ≤ max expected 1 := le_max_left _ _
      omega
    have : (((expected - packets.length)
        + (packets.filter (fun p => !p.intact)).length : ℕ) : ℚ)
        ≤ ((max expected 1 : ℕ) : ℚ) := by exact_mod_cast hnum
    calc (recvStats expected packets).2.2.2.2
        = (((expected - packets.length)
            + (packets.filter (fun p => !p.intact)).length : ℕ) : ℚ)
          / ((max expected 1 : ℕ) : ℚ) := by simp [recvStats]
    _ ≤ 1 := by
        rw [div_le_one hden]
        exact this

/-- C2 witness: 10 expected, 3 found of which 2 intact — PER = 8/10. -/
theorem recv_per_arithmetic_witness :
    0 ≤ (recvStats 10 [⟨0, true, true, true⟩, ⟨1, true, true, true⟩,
          ⟨2, false, true, false⟩]).2.2.2.2
    ∧ (recvStats 10 [⟨0, true, true, true⟩, ⟨1, true, true, true⟩,
          ⟨2, false, true, false⟩]).2.2.2.2 ≤ 1 :=
  ⟨(recv_per_arithmetic 10 _).2.2.2.1,
   (recv_per_arithmetic 10 _).2.2.2.2 (by norm_num)⟩

/-- C2 counterexample: with `expected = 1` and two corrupted records
found, the computed PER is `(0 + 2) / 1 = 2`, outside `[0, 1]` — the
claim's bound fails whenever more packets are found than expected. -/
theorem recv_per_exceeds_one :
    (recvStats 1 [⟨0, false, false, false⟩, ⟨1, false, false, false⟩]).2.2.2.2 = 2
    ∧ ¬((recvStats 1 [⟨0, false, false, false⟩, ⟨1, false, false, false⟩]).2.2.2.2 ≤ 1) := by
  constructor
  · norm_num [recvStats, List.filter]
  · norm_num [recvStats, List.filter]

/-! ## WAV readers (`recv.py`, lines 161–193; `analyze.py`, lines 39–87) -/

/-- Failure modes of the WAV readers (`ValueError` / `struct.error` /
`numpy` buffer-size errors in the source). -/
inductive WavError where
  | notRiff : WavError
  | notWave : WavError
  | structError : WavError
  | unsupportedFormat : WavError
  | noAudioData : WavError
  | bufferSize : WavError
deriving DecidableEq

/-- Decidable equality of reader results. -/
instance {ε α : Type} [DecidableEq ε] [DecidableEq α] : DecidableEq (Except ε α) :=
  fun a b =>
  match a, b with
  | Except.ok x, Except.ok y =>
    if h : x = y then isTrue (by rw [h]) else isFalse (fun hq => h (Except.ok.inj hq))
  | Except.error e1, Except.error e2 =>
    if h : e1 = e2 then isTrue (by rw [h]) else isFalse (fun hq => h (Except.error.inj hq))
  | Except.ok _, Except.error _ => isFalse (fun hq => Except.noConfusion hq)
  | Except.error _, Except.ok _ => isFalse (fun hq => Except.noConfusion hq)

/-- Little-endian value of a byte list. -/
def leVal (bs : List ℕ) : ℕ := bs.foldr (fun b acc => b + 256 * acc) 0

/-- `struct.unpack` of exactly `k` little-endian bytes; raises
`struct.error` when the slice is shorter. -/
def unpackLE (k : ℕ) (bs : List ℕ) : Except WavError ℕ :=
  if bs.length = k then Except.ok (leVal bs) else Except.error WavError.structError

/-- The ASCII tag `RIFF`. -/
def riffId : List ℕ := [82, 73, 70, 70]

/-- The ASCII tag `WAVE`. -/
def waveId : List ℕ := [87, 65, 86, 69]

/-- The ASCII chunk id `fmt `. -/
def fmtId : List ℕ := [102, 109, 116, 32]

/-- The ASCII chunk id `data`. -/
def dataId : List ℕ := [100, 97, 116, 97]

/-- The chunk walk of `recv.read_wav`: carries `(sample_rate, bits, data)`
with defaults `(48000, 16, b"")`; later chunks overwrite earlier ones,
unknown chunks are skipped, a short id read breaks the loop.  The fuel
argument only bounds the iteration count; every iteration consumes at
least 8 bytes, so the caller's fuel `rest.length` is never exhausted
before the loop would break on its own. -/
def recvChunksGo : ℕ → List ℕ → ℕ → ℕ → List ℕ → Except WavError (ℕ × ℕ × List ℕ)
  | 0, _, sr, bits, data => Except.ok (sr, bits, data)
  | fuel + 1, rest, sr, bits, data =>
    if rest.length < 4 then Except.ok (sr, bits, data)
    else
      let cid := rest.take 4
      let rest1 := rest.drop 4
      match unpackLE 4 (rest1.take 4) with
      | Except.error e => Except.error e
      | Except.ok csize =>
        let rest2 := rest1.drop 4
        if cid = fmtId then
          let fmtData := rest2.take csize
          match unpackLE 4 ((fmtData.drop 4).take 4) with
          | Except.error e => Except.error e
          | Except.ok sr2 =>
            match unpackLE 2 ((fmtData.drop 14).take 2) with
            | Except.error e => Except.error e
            | Except.ok bits2 => recvChunksGo fuel (rest2.drop csize) sr2 bits2 data
        else if cid = dataId then
          recvChunksGo fuel (rest2.drop csize) sr bits (rest2.take csize)
        else recvChunksGo fuel (rest2.drop csize) sr bits data

/-- The chunk loop of `recv.read_wav` started with adequate fuel. -/
def recvChunks (rest : List ℕ) (sr bits : ℕ) (data : List ℕ) :
    Except WavError (ℕ × ℕ × List ℕ) :=
  recvChunksGo rest.length rest sr bits data

/-- One signed little-endian 16-bit PCM sample scaled by `1/32768`. -/
def int16Val (lo hi : ℕ) : ℚ :=
  let v := lo + 256 * hi
  ((if v < 32768 then (v : ℤ) else (v : ℤ) - 65536 : ℤ) : ℚ) / (32768 : ℚ)

/-- `np.frombuffer(dtype=np.int16) / 32768`. -/
def pcm16ToSamples : List ℕ → List ℚ
  | lo :: hi :: rest => int16Val lo hi :: pcm16ToSamples rest
  | _ => []

/-- `recv.read_wav`: checks only the `RIFF` tag, skips the next 8 bytes
unvalidated, walks the chunks, then converts 16-bit data — there is no
check that a `data` chunk was present. -/
def readWavRecv (bytes : List ℕ) : Except WavError (List ℚ × ℕ) :=
  if bytes.take 4 ≠ riffId then Except.error WavError.notRiff
  else
    match recvChunks (bytes.drop 12) 48000 16 [] with
    | Except.error e => Except.error e
    | Except.ok (sr, bits, data) =>
      if bits = 16 then
        if data.length % 2 = 0 then Except.ok (pcm16ToSamples data, sr)
        else Except.error WavError.bufferSize
      else Except.error WavError.unsupportedFormat

/-- The chunk walk of `analyze.read_wav`: also unpacks the audio format
(unused) and the channel count; defaults `(44100, 1, 16, b"")`.  Fuel as
in `recvChunksGo`. -/
def analyzeChunksGo : ℕ → List ℕ → ℕ → ℕ → ℕ → List ℕ →
    Except WavError (ℕ × ℕ × ℕ × List ℕ)
  | 0, _, sr, ch, bits, data => Except.ok (sr, ch, bits, data)
  | fuel + 1, rest, sr, ch, bits, data =>
    if rest.length < 4 then Except.ok (sr, ch, bits, data)
    else
      let cid := rest.take 4
      let rest1 := rest.drop 4
      match unpackLE 4 (rest1.take 4) with
      | Except.error e => Except.error e
      | Except.ok csize =>
        let rest2 := rest1.drop 4
        if cid = fmtId then
          let fmtData := rest2.take csize
          match unpackLE 2 (fmtData.take 2) with
          | Except.error e => Except.error e
          | Except.ok _ =>
            match unpackLE 2 ((fmtData.drop 2).take 2) with
            | Except.error e => Except.error e
            | Except.ok ch2 =>
              match unpackLE 4 ((fmtData.drop 4).take 4) with
              | Except.error e => Except.error e
              | Except.ok sr2 =>
                match unpackLE 2 ((fmtData.drop 14).take 2) with
                | Except.error e => Except.error e
                | Except.ok bits2 =>
                  analyzeChunksGo fuel (rest2.drop csize) sr2 ch2 bits2 data
        else if cid = dataId then
          analyzeChunksGo fuel (rest2.drop csize) sr ch bits (rest2.take csize)
        else analyzeChunksGo fuel (rest2.drop csize) sr ch bits data

/-- The chunk loop of `analyze.read_wav` started with adequate fuel. -/
def analyzeChunks (rest : List ℕ) (sr ch bits : ℕ) (data : List ℕ) :
    Except WavError (ℕ × ℕ × ℕ × List ℕ) :=
  analyzeChunksGo rest.length rest sr ch bits data

/-- One signed little-endian 32-bit PCM sample scaled by `1/2^31`. -/
def int32Val (b0 b1 b2 b3 : ℕ) : ℚ :=
  let v := b0 + 256 * (b1 + 256 * (b2 + 256 * b3))
  ((if v < 2147483648 then (v : ℤ) else (v : ℤ) - 4294967296 : ℤ) : ℚ) / (2147483648 : ℚ)

/-- `np.frombuffer(dtype=np.int32) / 2147483648`. -/
def pcm32ToSamples : List ℕ → List ℚ
  | b0 :: b1 :: b2 :: b3 :: rest => int32Val b0 b1 b2 b3 :: pcm32ToSamples rest
  | _ => []

/-- `samples.reshape(-1, channels)[:, 0]`: every `ch`-th sample. -/
def firstChannel (ch : ℕ) : List ℚ → List ℚ
  | [] => []
  | x :: rest => x :: firstChannel ch (rest.drop (ch - 1))
termination_by l => l.length
decreasing_by
  simp only [List.length_drop, List.length_cons]
  omega

/-- Sample conversion in `analyze.read_wav`: depth dispatch, then the
first-channel extraction for multichannel data. -/
def convertSamples (bits ch : ℕ) (data : List ℕ) : Except WavError (List ℚ) :=
  let raw : Except WavError (List ℚ) :=
    if bits = 16 then
      if data.length % 2 = 0 then Except.ok (pcm16ToSamples data)
      else Except.error WavError.bufferSize
    else if bits = 32 then
      if data.length % 4 = 0 then Except.ok (pcm32ToSamples data)
      else Except.error WavError.bufferSize
    else Except.error WavError.unsupportedFormat
  match raw with
  | Except.error e => Except.error e
  | Except.ok s =>
    if 1 < ch then
      if s.length % ch = 0 then Except.ok (firstChannel ch s)
      else Except.error WavError.bufferSize
    else Except.ok s

/-- `analyze.read_wav`: checks `RIFF` and `WAVE`, walks the chunks,
raises `NoAudioData` on a missing `data` chunk, then converts. -/
def readWavAnalyze (bytes : List ℕ) : Except WavError (List ℚ × ℕ) :=
  if bytes.take 4 ≠ riffId then Except.error WavError.notRiff
  else if (bytes.drop 8).take 4 ≠ waveId then Except.error WavError.notWave
  else
    match analyzeChunks (bytes.drop 12) 44100 1 16 [] with
    | Except.error e => Except.error e
    | Except.ok (sr, ch, bits, data) =>
      if data = [] then Except.error WavError.noAudioData
      else
        match convertSamples bits ch data with
        | Except.error e => Except.error e
        | Except.ok s => Except.ok (s, sr)

/-- Nonemptiness of 16-bit conversion on nonempty even-length data. -/
theorem pcm16ToSamples_ne_nil (l : List ℕ) (hne : l ≠ []) (hev : l.length % 2 = 0) :
    pcm16ToSamples l ≠ [] := by
  match l with
  | [] => exact absurd rfl hne
  | [a] => simp at hev
  | a :: b :: rest => simp [pcm16ToSamples]

/-- Nonemptiness of 32-bit conversion on nonempty aligned data. -/
theorem pcm32ToSamples_ne_nil (l : List ℕ) (hne : l ≠ []) (hev : l.length % 4 = 0) :
    pcm32ToSamples l ≠ [] := by
  match l with
  | [] => exact absurd rfl hne
  | [a] => simp at hev
  | [a, b] => simp at hev
  | [a, b, c] => simp at hev
  | a :: b :: c :: d :: rest => simp [pcm32ToSamples]

/-- Channel extraction keeps at least the first sample. -/
theorem firstChannel_ne_nil (ch : ℕ) (s : List ℚ) (hne : s ≠ []) :
    firstChannel ch s ≠ [] := by
  match s with
  | [] => exact absurd rfl hne
  | x :: rest => simp [firstChannel]

/-- Sample conversion never returns an empty sample list for nonempty
audio data. -/
theorem convertSamples_ne_nil (bits ch : ℕ) (data : List ℕ) (hd : data ≠ [])
    (s : List ℚ) (hok : convertSamples bits ch data = Except.ok s) : s ≠ [] := by
  have hchan : ∀ t : List ℚ, t ≠ [] →
      (if 1 < ch then
        (if t.length % ch = 0 then Except.ok (firstChannel ch t)
         else Except.error WavError.bufferSize)
       else Except.ok t) = Except.ok s → s ≠ [] := by
    intro t ht hmatch
    by_cases hc : 1 < ch
    · rw [if_pos hc] at hmatch
      by_cases hm : t.length % ch = 0
      · rw [if_pos hm] at hmatch
        injection hmatch with h2
        rw [← h2]
        exact firstChannel_ne_nil ch t ht
      · rw [if_neg hm] at hmatch
        exact absurd hmatch (by simp)
    · rw [if_neg hc] at hmatch
      injection hmatch with h2
      rw [← h2]
      exact ht
  unfold convertSamples at hok
  by_cases h16 : bits = 16
  · rw [if_pos h16] at hok
    by_cases hev : data.length % 2 = 0
    · rw [if_pos hev] at hok
      exact hchan (pcm16ToSamples data) (pcm16ToSamples_ne_nil data hd hev) hok
    · rw [if_neg hev] at hok
      exact absurd hok (by simp)
  · rw [if_neg h16] at hok
    by_cases h32 : bits = 32
    · rw [if_pos h32] at hok
      by_cases hev : data.length % 4 = 0
      · rw [if_pos hev] at hok
        exact hchan (pcm32ToSamples data) (pcm32ToSamples_ne_nil data hd hev) hok
      · rw [if_neg hev] at hok
        exact absurd hok (by simp)
    · rw [if_neg h32] at hok
      exact absurd hok (by simp)

/-- A RIFF/WAVE file with no chunks at all: in particular no `data`. -/
def noDataWav : List ℕ := riffId ++ [0, 0, 0, 0] ++ waveId

/-- A well-formed mono PCM16 WAV at 48000 Hz with one sample (value
`16384/32768 = 1/2`). -/
def goodWav : List ℕ :=
  riffId ++ [0, 0, 0, 0] ++ waveId
    ++ fmtId ++ [16, 0, 0, 0]
    ++ [1, 0, 1, 0, 128, 187, 0, 0, 0, 0, 0, 0, 2, 0, 16, 0]
    ++ dataId ++ [2, 0, 0, 0] ++ [0, 64]

/-- A `RIFF` file whose `WAVE` tag is wrong (`XXXX`): an unsupported
container. -/
def notWaveWav : List ℕ := riffId ++ [0, 0, 0, 0] ++ [88, 88, 88, 88]

/-- A RIFF/WAVE file declaring 8 bits per sample, with a 2-byte `data`
chunk: an unsupported bit depth for both readers. -/
def badBitsWav : List ℕ :=
  riffId ++ [0, 0, 0, 0] ++ waveId
    ++ fmtId ++ [16, 0, 0, 0]
    ++ [1, 0, 1, 0, 128, 187, 0, 0, 0, 0, 0, 0, 1, 0, 8, 0]
    ++ dataId ++ [2, 0, 0, 0] ++ [7, 7]

/-- C7 counterexample: on a WAV with no `data` chunk, `recv.read_wav`
does **not** fail — it silently returns empty audio data (which the
receiver then demodulates), while `analyze.read_wav` raises
`NoAudioData` as the claim demands of both readers; and on a `RIFF`
file whose `WAVE` tag is wrong — an unsupported container —
`recv.read_wav` also silently succeeds, because it skips those four
bytes without checking them, while `analyze.read_wav` rejects it. -/
theorem readWavRecv_missing_data_succeeds :
    readWavRecv noDataWav = Except.ok ([], 48000)
    ∧ readWavAnalyze noDataWav = Except.error WavError.noAudioData
    ∧ readWavRecv notWaveWav = Except.ok ([], 48000)
    ∧ readWavAnalyze notWaveWav = Except.error WavError.notWave := by
  refine ⟨rfl, rfl, rfl, rfl⟩

/-- C7 (amended): both readers reject a non-`RIFF` container;
`analyze.read_wav` additionally rejects a missing `WAVE` tag (while
`recv.read_wav` skips those bytes unchecked — see the counterexample);
both readers fail with `UnsupportedFormat` on an unsupported bit depth
(`recv` accepts only 16-bit, `analyze` 16- and 32-bit); and
`analyze.read_wav` fails with `NoAudioData` whenever the chunk walk
finds no `data` chunk, and never returns empty samples on success.
`recv.read_wav` performs no missing-data check (counterexample). -/
theorem readWav_failure_modes :
    (∀ b : List ℕ, b.take 4 ≠ riffId →
        readWavRecv b = Except.error WavError.notRiff)
    ∧ (∀ b : List ℕ, b.take 4 ≠ riffId →
        readWavAnalyze b = Except.error WavError.notRiff)
    ∧ (∀ b : List ℕ, b.take 4 = riffId → (b.drop 8).take 4 ≠ waveId →
        readWavAnalyze b = Except.error WavError.notWave)
    ∧ (∀ b : List ℕ, ∀ sr bits : ℕ, ∀ data : List ℕ,
        b.take 4 = riffId →
        recvChunks (b.drop 12) 48000 16 [] = Except.ok (sr, bits, data) →
        bits ≠ 16 → readWavRecv b = Except.error WavError.unsupportedFormat)
    ∧ (∀ b : List ℕ, ∀ sr ch bits : ℕ, ∀ data : List ℕ,
        b.take 4 = riffId → (b.drop 8).take 4 = waveId →
        analyzeChunks (b.drop 12) 44100 1 16 [] = Except.ok (sr, ch, bits, data) →
        data ≠ [] → bits ≠ 16 → bits ≠ 32 →
        readWavAnalyze b = Except.error WavError.unsupportedFormat)
    ∧ (∀ b : List ℕ, ∀ sr ch bits : ℕ,
        b.take 4 = riffId → (b.drop 8).take 4 = waveId →
        analyzeChunks (b.drop 12) 44100 1 16 [] = Except.ok (sr, ch, bits, []) →
        readWavAnalyze b = Except.error WavError.noAudioData)
    ∧ (∀ b : List ℕ, ∀ s : List ℚ, ∀ sr : ℕ,
        readWavAnalyze b = Except.ok (s, sr) → s ≠ []) := by
  refine ⟨?_, ?_, ?_, ?_, ?_, ?_, ?_⟩
  · intro b h1
    unfold readWavRecv
    rw [if_pos h1]
  · intro b h1
    unfold readWavAnalyze
    rw [if_pos h1]
  · intro b h1 h2
    unfold readWavAnalyze
    rw [if_neg (by simp [h1]), if_pos h2]
  · intro b sr bits data h1 hch hb
    unfold readWavRecv
    rw [if_neg (by simp [h1]), hch]
    dsimp only
    rw [if_neg hb]
  · intro b sr ch bits data h1 h2 hch hd h16 h32
    unfold readWavAnalyze
    rw [if_neg (by simp [h1]), if_neg (by simp [h2]), hch]
    dsimp only
    rw [if_neg hd]
    have hcv : convertSamples bits ch data
        = Except.error WavError.unsupportedFormat := by
      simp [convertSamples, h16, h32]
    rw [hcv]
  · intro b sr ch bits h1 h2 hch
    unfold readWavAnalyze
    rw [if_neg (by simp [h1]), if_neg (by simp [h2]), hch]
    dsimp only
    rw [if_pos rfl]
  · intro b s sr hok
    unfold readWavAnalyze at hok
    by_cases h1 : b.take 4 ≠ riffId
    · rw [if_pos h1] at hok
      exact absurd hok (by simp)
    · rw [if_neg h1] at hok
      by_cases h2 : (b.drop 8).take 4 ≠ waveId
      · rw [if_pos h2] at hok
        exact absurd hok (by simp)
      · rw [if_neg h2] at hok
        cases hch : analyzeChunks (b.drop 12) 44100 1 16 [] with
        | error e =>
          rw [hch] at hok
          exact absurd hok (by simp)
        | ok r =>
          obtain ⟨sr0, ch0, bits0, data0⟩ := r
          rw [hch] at hok
          dsimp only at hok
          by_cases hd : data0 = []
          · rw [if_pos hd] at hok
            exact absurd hok (by simp)
          · rw [if_neg hd] at hok
            cases hcv : convertSamples bits0 ch0 data0 with
            | error e =>
              rw [hcv] at hok
              exact absurd hok (by simp)
            | ok s2 =>
              rw [hcv] at hok
              dsimp only at hok
              injection hok with hpair
              have hs2 : s2 = s := congrArg Prod.fst hpair
              rw [← hs2]
              exact convertSamples_ne_nil bits0 ch0 data0 hd s2 hcv

/-- C7 amended-claim witness: each failure mode exercised at a concrete
byte string, and the success clause at a well-formed one-sample WAV. -/
theorem readWav_failure_modes_witness :
    readWavRecv [0] = Except.error WavError.notRiff
    ∧ readWavAnalyze [0] = Except.error WavError.notRiff
    ∧ readWavAnalyze notWaveWav = Except.error WavError.notWave
    ∧ readWavRecv badBitsWav = Except.error WavError.unsupportedFormat
    ∧ readWavAnalyze badBitsWav = Except.error WavError.unsupportedFormat
    ∧ readWavAnalyze noDataWav = Except.error WavError.noAudioData
    ∧ ([int16Val 0 64] : List ℚ) ≠ [] :=
  ⟨readWav_failure_modes.1 [0] (by decide),
   readWav_failure_modes.2.1 [0] (by decide),
   readWav_failure_modes.2.2.1 notWaveWav rfl (by decide),
   readWav_failure_modes.2.2.2.1 badBitsWav 48000 8 [7, 7] rfl rfl (by decide),
   readWav_failure_modes.2.2.2.2.1 badBitsWav 48000 1 8 [7, 7] rfl rfl rfl
     (by decide) (by decide) (by decide),
   readWav_failure_modes.2.2.2.2.2.1 noDataWav 44100 1 16 rfl rfl rfl,
   readWav_failure_modes.2.2.2.2.2.2 goodWav [int16Val 0 64] 48000 rfl⟩

/-! ## Spectral computations (`analyze.py`, `analyze_spectrum`, lines
104–117; `sweep.py`, `run_sweep`, lines 124–138)

Both scripts run `np.fft.rfft` on the same recording; the comparison the
claim makes is about the arithmetic applied downstream of the FFT, so
the FFT output is abstracted as a list of bins `(freq, |X[k]|)`. -/

/-- One rFFT bin: its frequency and magnitude `|X[k]|`. -/
structure FftBin where
  freq : ℚ
  mag : ℚ
deriving DecidableEq

/-- `np.mean` of a rational list (callers guard the empty case). -/
def qmean (l : List ℚ) : ℚ := l.sum / l.length

/-- `analyze_spectrum` signal power: mean of `(|X[k]|/n)²` over the
inclusive band `[band_start, band_end]`; 0 when the mask is empty. -/
def analyzeSignalPower (bins : List FftBin) (n : ℕ) (bandStart bandEnd : ℚ) : ℚ :=
  let sel := bins.filter fun b => decide (bandStart ≤ b.freq ∧ b.freq ≤ bandEnd)
  if sel = [] then 0 else qmean (sel.map fun b => (b.mag / n) ^ 2)

/-- `analyze_spectrum` noise power: mean of `(|X[k]|/n)²` over the
inclusive band `[noise_start, noise_end]`; `1e-10` when empty. -/
def analyzeNoisePower (bins : List FftBin) (n : ℕ) (noiseStart noiseEnd : ℚ) : ℚ :=
  let sel := bins.filter fun b => decide (noiseStart ≤ b.freq ∧ b.freq ≤ noiseEnd)
  if sel = [] then 1 / 10 ^ 10 else qmean (sel.map fun b => (b.mag / n) ^ 2)

/-- `run_sweep` signal power: mean of the raw `|X[k]|²` (no `1/n²`
normalisation) over the inclusive band `[start_freq, end_freq]`. -/
def sweepSignalPower (bins : List FftBin) (startFreq endFreq : ℚ) : ℚ :=
  let sel := bins.filter fun b => decide (startFreq ≤ b.freq ∧ b.freq ≤ endFreq)
  if sel = [] then 0 else qmean (sel.map fun b => b.mag ^ 2)

/-- `run_sweep` noise power: mean of raw `|X[k]|²` over the **strict**
band `100 < f < start_freq · 0.8`; `1e-10` when empty. -/
def sweepNoisePower (bins : List FftBin) (startFreq : ℚ) : ℚ :=
  let sel := bins.filter fun b => decide (100 < b.freq ∧ b.freq < startFreq * (8 / 10))
  if sel = [] then 1 / 10 ^ 10 else qmean (sel.map fun b => b.mag ^ 2)

/-- The argument of `10 · log10` in `analyze_spectrum`'s SNR:
`signal_power / max(noise_power, 1e-10)`; `snr_db` is a strictly
monotone function of this quotient, so equality of quotients is
equality of the reported SNRs. -/
def analyzeSnrQuot (bins : List FftBin) (n : ℕ) (bs be ns ne : ℚ) : ℚ :=
  analyzeSignalPower bins n bs be / max (analyzeNoisePower bins n ns ne) (1 / 10 ^ 10)

/-- The argument of `10 · log10` in `run_sweep`'s SNR. -/
def sweepSnrQuot (bins : List FftBin) (startFreq endFreq : ℚ) : ℚ :=
  sweepSignalPower bins startFreq endFreq
    / max (sweepNoisePower bins startFreq) (1 / 10 ^ 10)

/-- Sum of a pointwise-scaled map. -/
theorem sum_map_scaled (l : List FftBin) (f : FftBin → ℚ) (c : ℚ) :
    (l.map fun b => f b * c).sum = (l.map f).sum * c := by
  induction l with
  | nil => simp
  | cons x xs ih => simp [ih, add_mul]

/-- The mean of a pointwise-scaled map is the scaled mean. -/
theorem qmean_map_scaled (l : List FftBin) (f : FftBin → ℚ) (c : ℚ) :
    qmean (l.map fun b => f b * c) = qmean (l.map f) * c := by
  unfold qmean
  rw [sum_map_scaled]
  simp [div_mul_eq_mul_div]

/-- C8 (amended): the sweep's spectral shortcut uses the analyzer's
formulas with the noise band `(100, 0.8·band_start)`, but with two
divergences the claim omits: the sweep skips the `1/n` magnitude
normalisation (its powers are `n²` times the analyzer's) and its noise
mask is strict where the analyzer's is inclusive.  Away from the mask
boundaries and the `1e-10` floor, the SNR quotients coincide. -/
theorem spectral_refinement (bins : List FftBin) (n : ℕ) (bs be : ℚ)
    (hn : 1 ≤ n)
    (hb : ∀ x ∈ bins, x.freq ≠ 100 ∧ x.freq ≠ bs * (8 / 10))
    (hne : bins.filter (fun x => decide (100 < x.freq ∧ x.freq < bs * (8 / 10))) ≠ [])
    (hfl : 1 / 10 ^ 10 ≤ analyzeNoisePower bins n 100 (bs * (8 / 10))) :
    sweepSignalPower bins bs be = n ^ 2 * analyzeSignalPower bins n bs be
    ∧ sweepNoisePower bins bs = n ^ 2 * analyzeNoisePower bins n 100 (bs * (8 / 10))
    ∧ sweepSnrQuot bins bs be = analyzeSnrQuot bins n bs be 100 (bs * (8 / 10)) := by
  have hn0 : ((n : ℚ) ^ 2) ≠ 0 := by
    have h1 : (1 : ℚ) ≤ (n : ℚ) := by exact_mod_cast hn
    positivity
  have hscale : ∀ sel : List FftBin,
      qmean (sel.map fun b => b.mag ^ 2)
        = n ^ 2 * qmean (sel.map fun b => (b.mag / n) ^ 2) := by
    intro sel
    have hmap : (sel.map fun b => (b.mag / (n : ℚ)) ^ 2)
        = sel.map fun b => b.mag ^ 2 * ((n : ℚ) ^ 2)⁻¹ := by
      apply List.map_congr_left
      intro b _
      rw [div_pow, div_eq_mul_inv]
    rw [hmap, qmean_map_scaled]
    field_simp
  have hmask : bins.filter (fun x => decide (100 ≤ x.freq ∧ x.freq ≤ bs * (8 / 10)))
      = bins.filter (fun x => decide (100 < x.freq ∧ x.freq < bs * (8 / 10))) := by
    apply List.filter_congr
    intro x hx
    have hx1 := (hb x hx).1
    have hx2 := (hb x hx).2
    apply decide_eq_decide.mpr
    constructor
    · rintro ⟨ha, hb2⟩
      exact ⟨lt_of_le_of_ne ha (Ne.symm hx1), lt_of_le_of_ne hb2 hx2⟩
    · rintro ⟨ha, hb2⟩
      exact ⟨ha.le, hb2.le⟩
  have hsig : sweepSignalPower bins bs be = n ^ 2 * analyzeSignalPower bins n bs be := by
    unfold sweepSignalPower analyzeSignalPower
    by_cases hs : bins.filter (fun b => decide (bs ≤ b.freq ∧ b.freq ≤ be)) = []
    · rw [if_pos hs, if_pos hs]
      simp
    · rw [if_neg hs, if_neg hs]
      exact hscale _
  have hnoise : sweepNoisePower bins bs
      = n ^ 2 * analyzeNoisePower bins n 100 (bs * (8 / 10)) := by
    unfold sweepNoisePower analyzeNoisePower
    rw [hmask]
    rw [if_neg hne, if_neg hne]
    exact hscale _
  refine ⟨hsig, hnoise, ?_⟩
  unfold sweepSnrQuot analyzeSnrQuot
  rw [hsig, hnoise]
  have hno0 : (0 : ℚ) ≤ analyzeNoisePower bins n 100 (bs * (8 / 10)) :=
    le_trans (by norm_num) hfl
  have hnn : (1 : ℚ) ≤ (n : ℚ) ^ 2 := by
    have h1 : (1 : ℚ) ≤ (n : ℚ) := by exact_mod_cast hn
    nlinarith
  have hmul := mul_le_mul_of_nonneg_right hnn hno0
  rw [max_eq_left (by linarith), max_eq_left hfl]
  rw [mul_div_mul_left _ _ hn0]

/-- C8 amended-claim witness: two bins, one in the noise band and one in
the signal band, with `n = 2` samples. -/
theorem spectral_refinement_witness :
    sweepSignalPower [⟨200, 1⟩, ⟨18000, 2⟩] 17000 22000
      = 2 ^ 2 * analyzeSignalPower [⟨200, 1⟩, ⟨18000, 2⟩] 2 17000 22000
    ∧ sweepNoisePower [⟨200, 1⟩, ⟨18000, 2⟩] 17000
      = 2 ^ 2 * analyzeNoisePower [⟨200, 1⟩, ⟨18000, 2⟩] 2 100 (17000 * (8 / 10))
    ∧ sweepSnrQuot [⟨200, 1⟩, ⟨18000, 2⟩] 17000 22000
      = analyzeSnrQuot [⟨200, 1⟩, ⟨18000, 2⟩] 2 17000 22000 100 (17000 * (8 / 10)) := by
  refine spectral_refinement [⟨200, 1⟩, ⟨18000, 2⟩] 2 17000 22000 (by norm_num) ?_ ?_ ?_
  · intro x hx
    simp only [List.mem_cons, List.not_mem_nil, or_false] at hx
    rcases hx with hx | hx
    · subst hx
      exact ⟨by norm_num, by norm_num⟩
    · subst hx
      exact ⟨by norm_num, by norm_num⟩
  · have hfil : List.filter (fun x : FftBin => decide ((100 : ℚ) < x.freq
        ∧ x.freq < 17000 * (8 / 10))) [⟨200, 1⟩, ⟨18000, 2⟩]
        = [⟨(200 : ℚ), 1⟩] := by
      rw [List.filter_cons, if_pos (by norm_num), List.filter_cons,
        if_neg (by norm_num), List.filter_nil]
    rw [hfil]
    simp
  · have hfil : List.filter (fun b : FftBin => decide ((100 : ℚ) ≤ b.freq
        ∧ b.freq ≤ 17000 * (8 / 10))) [⟨200, 1⟩, ⟨18000, 2⟩]
        = [⟨(200 : ℚ), 1⟩] := by
      rw [List.filter_cons, if_pos (by norm_num), List.filter_cons,
        if_neg (by norm_num), List.filter_nil]
    unfold analyzeNoisePower
    rw [hfil]
    rw [if_neg (by simp)]
    norm_num [qmean]

/-- C8 counterexample: the sweep's powers are **not** the analyzer's
values with a different noise band.  A signal bin of magnitude 2 with
`n = 2` gives sweep signal power 4 against analyzer signal power 1 (the
missing `1/n²`), and a bin exactly at 100 Hz falls in the analyzer's
inclusive noise band but outside the sweep's strict one. -/
theorem spectral_powers_differ :
    sweepSignalPower [⟨18000, 2⟩] 17000 22000
      ≠ analyzeSignalPower [⟨18000, 2⟩] 2 17000 22000
    ∧ sweepNoisePower [⟨100, 3⟩] 17000
      ≠ analyzeNoisePower [⟨100, 3⟩] 1 100 (17000 * (8 / 10)) := by
  have hf1 : List.filter (fun b : FftBin => decide ((17000 : ℚ) ≤ b.freq ∧ b.freq ≤ 22000))
      [⟨(18000 : ℚ), 2⟩] = [⟨(18000 : ℚ), 2⟩] := by
    rw [List.filter_cons, if_pos (by norm_num), List.filter_nil]
  have hf2 : List.filter (fun b : FftBin => decide ((100 : ℚ) < b.freq
      ∧ b.freq < 17000 * (8 / 10))) [⟨(100 : ℚ), 3⟩] = [] := by
    rw [List.filter_cons, if_neg (by norm_num), List.filter_nil]
  have hf3 : List.filter (fun b : FftBin => decide ((100 : ℚ) ≤ b.freq
      ∧ b.freq ≤ 17000 * (8 / 10))) [⟨(100 : ℚ), 3⟩] = [⟨(100 : ℚ), 3⟩] := by
    rw [List.filter_cons, if_pos (by norm_num), List.filter_nil]
  constructor
  · unfold sweepSignalPower analyzeSignalPower
    rw [hf1]
    rw [if_neg (by simp), if_neg (by simp)]
    norm_num [qmean]
  · unfold sweepNoisePower analyzeNoisePower
    rw [hf2, hf3]
    rw [if_pos rfl, if_neg (by simp)]
    norm_num [qmean]

end ClosedClaw
